import Mathlib

/-!
Verification of the market-trend-analyzer text-analysis pipeline.

This file gives a shallow embedding of the two core operations of the
repository, `analyze_collected_results` (src/agents/analysis.py) and
`generate_summary` (src/agents/summarization.py), and proves properties
of them.

Python values flowing through the two functions are modelled by the
inductive type `Val` (strings, integers, lists, dictionaries-as-assoc-lists
and None).  A Python dictionary is modelled as an association list with the
keys of interest looked up by first match (real dictionaries have unique
keys).  A Python exception (TypeError / AttributeError on ill-typed input)
is modelled by returning `none` from the embedded function; a structured
`{status, ...}` return value is modelled by `some` of an explicit result
type.  Text is assumed to be ASCII, matching every input the repository
produces (`str.lower` is modelled as ASCII lowercasing and the `\w` class
of the Python regex engine as ASCII letters, digits and underscore).
-/

/-- Model of the Python values that can flow through the pipeline. -/
inductive Val where
  | vstr : String → Val
  | vint : Int → Val
  | vlist : List Val → Val
  | vdict : List (String × Val) → Val
  | vnone : Val

/-- Python `d.get(k, dflt)` on a dictionary modelled as an association list. -/
def lookupD (d : List (String × Val)) (k : String) (dflt : Val) : Val :=
  match List.lookup k d with
  | some v => v
  | none => dflt

/-- Python `k in d` on a dictionary. -/
def hasKey (d : List (String × Val)) (k : String) : Bool :=
  (List.lookup k d).isSome

/-- Python truthiness of a value (`bool(v)`). -/
def truthy : Val → Bool
  | .vstr s => !(s == "")
  | .vint n => !(n == 0)
  | .vlist l => !l.isEmpty
  | .vdict l => !l.isEmpty
  | .vnone => false

/-- Python iteration over a value: lists yield their elements, strings yield
their one-character substrings, dictionaries yield their keys; integers and
None are not iterable (a `TypeError`, modelled as `none`). -/
def pyIter : Val → Option (List Val)
  | .vlist l => some l
  | .vstr s => some (s.data.map (fun c => .vstr (String.mk [c])))
  | .vdict l => some (l.map (fun p => .vstr p.1))
  | .vint _ => none
  | .vnone => none

mutual

/-- Python `repr` of a value (string escaping inside nested values is not
reproduced; no theorem in this file depends on the rendering of a nested
structured value). -/
def pyRepr : Val → String
  | .vstr s => "\x27" ++ s ++ "\x27"
  | .vint n => toString n
  | .vnone => "None"
  | .vlist l => "[" ++ pyReprL l ++ "]"
  | .vdict l => "\x7b" ++ pyReprD l ++ "\x7d"

/-- Comma-separated reprs of the elements of a Python list. -/
def pyReprL : List Val → String
  | [] => ""
  | [v] => pyRepr v
  | v :: vs => pyRepr v ++ ", " ++ pyReprL vs

/-- Comma-separated reprs of the entries of a Python dictionary. -/
def pyReprD : List (String × Val) → String
  | [] => ""
  | [(k, v)] => "\x27" ++ k ++ "\x27: " ++ pyRepr v
  | (k, v) :: vs => "\x27" ++ k ++ "\x27: " ++ pyRepr v ++ ", " ++ pyReprD vs

end

/-- Python `str` of a value, as used by f-string interpolation. -/
def pyStr : Val → String
  | .vstr s => s
  | v => pyRepr v

/-- Python `sep.join(parts)`. -/
def pyJoin (sep : String) : List String → String
  | [] => ""
  | [x] => x
  | x :: xs => x ++ sep ++ pyJoin sep xs

/-- ASCII lowercasing of one character, the action of Python `str.lower`
on the ASCII text handled by the pipeline. -/
def lowerCh (c : Char) : Char := c.toLower

/-- ASCII lowercasing of a string. -/
def lowerStr (s : String) : String := String.mk (s.data.map lowerCh)

/-- The character class `[a-zA-Z]` of the tokenizing regex. -/
def isAsciiAlpha (c : Char) : Bool :=
  ('a' ≤ c && c ≤ 'z') || ('A' ≤ c && c ≤ 'Z')

/-- The regex word class `\w` (ASCII fragment): letters, digits, underscore.
The `\b` anchors of the tokenizing regex test membership in this class. -/
def isWordCh (c : Char) : Bool :=
  isAsciiAlpha c || ('0' ≤ c && c ≤ '9') || c == '_'

/-- Scanner for `re.findall(r'\b[a-zA-Z]+\b', s)`: walks the characters
keeping the current (reversed) letter run, whether the run started at a
word boundary, and whether the position right after the last non-letter
character is a word boundary.  A maximal letter run is produced as a token
exactly when the characters adjacent to it on both sides (when they exist)
are outside the `\w` class. -/
def wordsAux (run : List Char) (startOk prevOk : Bool) : List Char → List String
  | [] => if !run.isEmpty && startOk then [String.mk run.reverse] else []
  | c :: cs =>
    if isAsciiAlpha c then
      if run.isEmpty then wordsAux [c] prevOk prevOk cs
      else wordsAux (c :: run) startOk prevOk cs
    else
      if !run.isEmpty && startOk && !isWordCh c then
        String.mk run.reverse :: wordsAux [] false (!isWordCh c) cs
      else
        wordsAux [] false (!isWordCh c) cs

/-- The token list `re.findall(r'\b[a-zA-Z]+\b', s)` (analysis.py line 94). -/
def pyWords (s : String) : List String := wordsAux [] false true s.data

/-- The stopword set of analysis.py lines 97-108, transcribed verbatim
(including the duplicated entries of the Python set literal, which are
harmless under membership). -/
def stopwords : List String :=
  ["the", "a", "an", "and", "or", "but", "in", "on", "at", "to", "for", "of", "with",
   "by", "from", "up", "about", "into", "through", "during", "before", "after",
   "above", "below", "between", "among", "this", "that", "these", "those", "i",
   "me", "my", "myself", "we", "our", "ours", "ourselves", "you", "your", "yours",
   "yourself", "yourselves", "he", "him", "his", "himself", "she", "her", "hers",
   "herself", "it", "its", "itself", "they", "them", "their", "theirs", "themselves",
   "what", "which", "who", "whom", "this", "that", "these", "those", "am", "is",
   "are", "was", "were", "be", "been", "being", "have", "has", "had", "having",
   "do", "does", "did", "doing", "will", "would", "should", "could", "can", "may",
   "might", "must", "shall", "sample", "about", "latest", "new", "today", "news"]

/-- Lines 90-111 of analysis.py: join the accepted texts with single spaces,
lowercase, tokenize, and keep the tokens of length `> 2` that are not
stopwords. -/
def filteredWords (texts : List String) : List String :=
  (pyWords (lowerStr (pyJoin " " texts))).filter
    (fun w => decide (2 < w.length) && !(stopwords.contains w))

/-- First-occurrence deduplication with an accumulator of already seen
tokens; `dedupF [] l` lists the distinct elements of `l` in order of first
occurrence, which is the insertion order of `collections.Counter(l)`. -/
def dedupF (seen : List String) : List String → List String
  | [] => []
  | x :: xs => if seen.contains x then dedupF seen xs else x :: dedupF (x :: seen) xs

/-- Stable insertion of `x` into a list sorted by `c` descending: `x` goes
after every element of count `≥ c x`, matching the stability of
`Counter.most_common` (earlier-inserted elements win ties). -/
def insertD (c : String → Nat) (x : String) : List String → List String
  | [] => [x]
  | y :: ys => if c y < c x then x :: y :: ys else y :: insertD c x ys

/-- Stable sort by `c` descending (elements inserted in input order). -/
def sortDesc (c : String → Nat) (l : List String) : List String :=
  l.foldl (fun acc x => insertD c x acc) []

/-- Lines 113-117 of analysis.py: `Counter(filtered_words).most_common(10)`
with the counts dropped — the distinct filtered tokens in descending order
of occurrence count, ties broken by first-occurrence (insertion) order,
truncated to 10. -/
def topKeywords (fw : List String) : List String :=
  (sortDesc (fun w => fw.count w) (dedupF [] fw)).take 10

/-- The theme table of analysis.py lines 123-130, in declaration order. -/
def themePatterns : List (String × List String) :=
  [("Technology & Innovation",
    ["technology", "innovation", "tech", "ai", "artificial", "intelligence",
     "machine", "learning", "digital", "algorithm"]),
   ("Finance & Investment",
    ["finance", "fintech", "investment", "money", "financial", "banking",
     "payment", "market", "economic", "economy"]),
   ("Healthcare & Medical",
    ["healthcare", "health", "medical", "medicine", "patient", "treatment",
     "clinical", "pharmaceutical"]),
   ("Business & Industry",
    ["business", "industry", "company", "corporate", "startup", "enterprise",
     "commercial", "growth", "development"]),
   ("Research & Analysis",
    ["research", "analysis", "study", "data", "findings", "report", "paper",
     "academic", "scientific"]),
   ("Market Trends",
    ["trend", "trending", "market", "growth", "increase", "sector", "industry",
     "demand", "consumer"])]

/-- The `theme_score` of analysis.py line 133: how many of the theme's
keywords occur in the filtered token list. -/
def themeScore (fw : List String) (kws : List String) : Nat :=
  (kws.filter (fun kw => fw.contains kw)).length

/-- Lines 132-135 of analysis.py: the themes whose score is positive, in
the declaration order of the theme table. -/
def topicsOf (fw : List String) : List String :=
  (themePatterns.filter (fun p => decide (0 < themeScore fw p.2))).map Prod.fst

/-- Lines 137-143 of analysis.py: the `summary_notes` string. -/
def summaryNotes (totalItems : Nat) (tops keys : List String) : String :=
  if !tops.isEmpty then
    "Analysis of " ++ toString totalItems ++ " items reveals dominant themes in " ++
      pyJoin ", " (tops.take 3) ++ ". " ++
      "Key recurring terms include " ++ pyJoin ", " (keys.take 5) ++ "."
  else
    "Analysis of " ++ toString totalItems ++ " items shows diverse content without clear dominant themes."

/-- Result of `analyze_collected_results`: either the error dictionary
`{status: error, error_message}` or the success dictionary
`{status: success, keywords, topics, summary_notes}`. -/
inductive AnalyzeResult where
  | err (error_message : String)
  | ok (keywords : List String) (topics : List String) (summary_notes : String)
deriving DecidableEq, Repr

/-- The `status` field of an analysis result. -/
def AnalyzeResult.status : AnalyzeResult → String
  | .err _ => "error"
  | .ok _ _ _ => "success"

/-- The `keywords` field of an analysis result (empty on error). -/
def AnalyzeResult.keywords : AnalyzeResult → List String
  | .err _ => []
  | .ok k _ _ => k

/-- The `topics` field of an analysis result (empty on error). -/
def AnalyzeResult.topics : AnalyzeResult → List String
  | .err _ => []
  | .ok _ t _ => t

/-- Lines 89-150 of analysis.py on the accepted text list: the analysis
core that always succeeds once at least one text item was accepted. -/
def analyzeCore (texts : List String) : AnalyzeResult :=
  let fw := filteredWords texts
  let keys := topKeywords fw
  let tops := topicsOf fw
  .ok keys tops (summaryNotes texts.length tops keys)

/-- Lines 37-38 and 56-57 (and 71-72, 79-80) of analysis.py: a news/social
style item contributes its `content` value when it is a dictionary having
a `content` key. -/
def itemContent : Val → Option Val
  | .vdict m => List.lookup "content" m
  | _ => none

/-- Lines 45-50 of analysis.py: a research item contributes
`item.get(\x27content\x27) or item.get(\x27title\x27, \x27\x27)` when that value is truthy. -/
def researchContent : Val → Option Val
  | .vdict m =>
    let c := lookupD m "content" .vnone
    let c2 := if truthy c then c else lookupD m "title" (.vstr "")
    if truthy c2 then some c2 else none
  | _ => none

/-- Python `inputs.get(k, [])` followed by the `isinstance(•, list)` guard:
only an actual list yields its items, anything else contributes nothing. -/
def listItems : Val → List Val
  | .vlist l => l
  | _ => []

/-- Lines 33-58 of analysis.py: the texts accepted from the three category
keys, in source order (news, research, social). -/
def categoryTexts (d : List (String × Val)) : List Val :=
  (listItems (lookupD d "news" (.vlist []))).filterMap itemContent ++
  (listItems (lookupD d "research" (.vlist []))).filterMap researchContent ++
  (listItems (lookupD d "social" (.vlist []))).filterMap itemContent

/-- Python `v == \x27success\x27` for the status value read with `.get(\x27status\x27)`. -/
def isSuccessStatus : Val → Bool
  | .vstr s => s == "success"
  | _ => false

/-- Lines 67-81 of analysis.py, one nested block of the comprehensive form:
`block.get(\x27status\x27)` requires the block to be a dictionary (anything else
raises `AttributeError`, modelled as `none`); on `status == \x27success\x27` the
`field` value (`articles` / `posts`) is iterated and each dictionary item
with a `content` key contributes it, otherwise the block contributes
nothing. -/
def blockTexts (block : Val) (field : String) : Option (List Val) :=
  match block with
  | .vdict m =>
    if isSuccessStatus (lookupD m "status" .vnone) then
      (pyIter (lookupD m field (.vlist []))).map (fun items => items.filterMap itemContent)
    else
      some []
  | _ => none

/-- Lines 29-81 of analysis.py: the full extraction of `all_text`.  The
comprehensive branch runs only when the category keys accepted nothing and
both `news_analysis` and `social_media_analysis` keys are present; the news
block is evaluated before the social block (so a news-side exception masks
the social side, as in Python). -/
def extractAll (d : List (String × Val)) : Option (List Val) :=
  let cats := categoryTexts d
  if !cats.isEmpty then some cats
  else if hasKey d "news_analysis" && hasKey d "social_media_analysis" then
    match blockTexts (lookupD d "news_analysis" (.vdict [])) "articles" with
    | none => none
    | some nt =>
      match blockTexts (lookupD d "social_media_analysis" (.vdict [])) "posts" with
      | none => none
      | some st => some (nt ++ st)
  else some []

/-- Python `\x27 \x27.join(all_text)` demands every accepted item be a string;
a non-string item raises `TypeError` (modelled as `none`). -/
def strList : List Val → Option (List String)
  | [] => some []
  | .vstr s :: vs => (strList vs).map (fun r => s :: r)
  | _ :: _ => none

/-- The `InvalidInput` message of analysis.py lines 24-27. -/
def invalidInputMsg : String :=
  "Invalid inputs provided. Expected dictionary with content data."

/-- The `NoContent` message of analysis.py lines 84-87. -/
def noContentMsg : String :=
  "No valid content found in inputs. Expected \x27news\x27, \x27research\x27, and \x27social\x27 keys with content arrays, or a comprehensive analysis result."

/-- Lines 12-150 of analysis.py, `analyze_collected_results`:
the guard `not inputs or not isinstance(inputs, dict)` rejects every
non-dictionary and also the empty dictionary (which is falsy in Python);
then the texts are extracted, a zero count yields the `NoContent` error,
and otherwise the analysis core runs on the (all-string) texts. -/
def analyze_collected_results (v : Val) : Option AnalyzeResult :=
  match v with
  | .vdict d =>
    if d.isEmpty then some (.err invalidInputMsg)
    else
      match extractAll d with
      | none => none
      | some ts =>
        if ts.isEmpty then some (.err noContentMsg)
        else
          match strList ts with
          | none => none
          | some texts => some (analyzeCore texts)
  | _ => some (.err invalidInputMsg)

/-- Result of `generate_summary`: the error dictionary or the success
dictionary `{status: success, summary}`. -/
inductive SumResult where
  | err (error_message : String)
  | ok (summary : String)
deriving DecidableEq, Repr

/-- The `status` field of a summarization result. -/
def SumResult.status : SumResult → String
  | .err _ => "error"
  | .ok _ => "success"

/-- Lines 49-56 of summarization.py: the opening clause. -/
def openingClause (tps : List String) : String :=
  if !tps.isEmpty then
    if tps.length == 1 then
      "Executive Summary: Analysis reveals a primary focus on " ++ lowerStr (tps.getD 0 "") ++ "."
    else
      "Executive Summary: Analysis reveals key themes across " ++ toString tps.length ++
        " major areas: " ++ lowerStr (pyJoin ", " tps) ++ "."
  else
    "Executive Summary: Analysis of collected data reveals diverse content patterns."

/-- Lines 58-64 of summarization.py: the key-findings clause (absent when
there are no keywords). -/
def findingsClauses (kws : List String) : List String :=
  if !kws.isEmpty then
    if 3 ≤ (kws.take 5).length then
      ["Key findings center around " ++ kws.getD 0 "" ++ ", " ++ kws.getD 1 "" ++ ", and " ++
        kws.getD 2 "" ++ ", indicating strong market interest and activity in these areas."]
    else
      ["Key findings highlight " ++ pyJoin ", " (kws.take 5) ++ " as primary areas of focus."]
  else []

/-- Lines 70-81 of summarization.py: the per-theme insight texts, selected
in the fixed order of the source. -/
def insightTexts (tps : List String) : List String :=
  (if tps.contains "Technology & Innovation" then
    ["significant technological advancement and innovation activity"] else []) ++
  (if tps.contains "Finance & Investment" then
    ["active financial markets and investment opportunities"] else []) ++
  (if tps.contains "Healthcare & Medical" then
    ["developments in healthcare and medical research"] else []) ++
  (if tps.contains "Business & Industry" then
    ["business growth and industrial development"] else []) ++
  (if tps.contains "Research & Analysis" then
    ["ongoing research initiatives and analytical studies"] else []) ++
  (if tps.contains "Market Trends" then
    ["emerging market trends and consumer behavior shifts"] else [])

/-- Lines 66-87 of summarization.py: the topic-insight clause (the insight
texts are only computed when `topics` is non-empty, and the clause is
emitted only when at least one insight was selected). -/
def insightClauses (tps : List String) : List String :=
  if !tps.isEmpty then
    match insightTexts tps with
    | [] => []
    | [i] => ["The analysis indicates " ++ i ++ "."]
    | is => ["The analysis indicates " ++ pyJoin ", " is.dropLast ++ ", and " ++
              is.getLastD "" ++ "."]
  else []

/-- Lines 89-102 of summarization.py: the strategic-implication texts,
triggered by the lowercased first five keywords and the topic list. -/
def implicationTexts (kws tps : List String) : List String :=
  let low5 := (kws.take 5).map lowerStr
  (if low5.contains "fintech" || tps.contains "Finance & Investment" then
    ["opportunities in financial technology and digital payment solutions"] else []) ++
  (if ["technology", "tech", "ai", "digital"].any (fun w => low5.contains w) then
    ["potential for technology-driven transformation and automation"] else []) ++
  (if low5.contains "healthcare" || tps.contains "Healthcare & Medical" then
    ["growth prospects in healthcare innovation and medical technology"] else [])

/-- Lines 101-102 of summarization.py: the strategic-implications clause. -/
def implicationClauses (kws tps : List String) : List String :=
  match implicationTexts kws tps with
  | [] => []
  | impls => ["Strategic implications suggest " ++ pyJoin ", " impls ++ "."]

/-- Lines 104-108 of summarization.py: the conclusion clause. -/
def conclusionClause (notes : String) : String :=
  if !(notes == "") then "Overall assessment: " ++ notes
  else "The combined analysis provides valuable insights for strategic decision-making and market positioning."

/-- The recommendation sentence of summarization.py line 112. -/
def recClause (kws : List String) : String :=
  "Recommendation: Continue monitoring developments in " ++ kws.getD 0 "" ++ " and " ++
    kws.getD 1 "" ++ " for emerging opportunities and competitive intelligence."

/-- Lines 110-112 of summarization.py: the recommendation clause, emitted
only when at least 3 keywords exist. -/
def recommendationClauses (kws : List String) : List String :=
  if 3 ≤ kws.length then [recClause kws] else []

/-- The clause groups of summarization.py lines 47-112 other than the final
recommendation, in emission order. -/
def preParts (kws tps : List String) (notes : String) : List String :=
  openingClause tps :: (findingsClauses kws ++ insightClauses tps ++
    implicationClauses kws tps ++ [conclusionClause notes])

/-- The full `summary_parts` list of summarization.py. -/
def summaryParts (kws tps : List String) (notes : String) : List String :=
  preParts kws tps notes ++ recommendationClauses kws

/-- Lines 46-115 of summarization.py on typed fields: the clause groups
joined with single spaces. -/
def generateSummaryCore (kws tps : List String) (notes : String) : String :=
  pyJoin " " (summaryParts kws tps notes)

/-- The invalid-analysis message of summarization.py lines 21-25. -/
def invalidAnalysisMsg : String :=
  "Invalid analysis results provided. Expected dictionary with analysis data."

/-- The `NoSignal` message of summarization.py lines 40-44. -/
def noSignalMsg : String :=
  "No meaningful keywords or topics found in analysis results."

/-- Lines 28-33 of summarization.py: the error text taken from the input
(`get(\x27error_message\x27, \x27Unknown error in analysis\x27)` rendered by the
f-string). -/
def upstreamErrText (d : List (String × Val)) : String :=
  match List.lookup "error_message" d with
  | none => "Unknown error in analysis"
  | some v => pyStr v

/-- A `keywords` value as a list of strings: an actual list must consist of
strings (Python would raise on a non-string entry when lowercasing the
first five or joining); a string behaves as its list of one-character
strings under every operation `generate_summary` performs on it. -/
def keywordStrings : Val → Option (List String)
  | .vlist l => strList l
  | .vstr s => some (s.data.map (fun c => String.mk [c]))
  | _ => none

/-- A `topics` value as a list of strings: only an actual list of strings
is modelled (a string-valued `topics` would make the membership tests of
summarization.py substring tests, and other types raise). -/
def topicStrings : Val → Option (List String)
  | .vlist l => strList l
  | _ => none

/-- Lines 10-120 of summarization.py, `generate_summary`: the guard
`not analysis_results or not isinstance(analysis_results, dict)` rejects
every non-dictionary and the (falsy) empty dictionary; a non-`success`
status propagates the upstream error text; empty (falsy) keywords and
topics yield the `NoSignal` error; otherwise the clause assembly runs.
The `summary_notes` value enters the conclusion clause through `pyStr`
when truthy, matching the f-string rendering. -/
def generate_summary (v : Val) : Option SumResult :=
  match v with
  | .vdict d =>
    if d.isEmpty then some (.err invalidAnalysisMsg)
    else if !isSuccessStatus (lookupD d "status" .vnone) then
      some (.err ("Analysis results indicate failure: " ++ upstreamErrText d))
    else
      let kwv := lookupD d "keywords" (.vlist [])
      let tpv := lookupD d "topics" (.vlist [])
      let ntv := lookupD d "summary_notes" (.vstr "")
      if !truthy kwv && !truthy tpv then some (.err noSignalMsg)
      else
        match keywordStrings kwv, topicStrings tpv with
        | some kws, some tps =>
          some (.ok (generateSummaryCore kws tps (if truthy ntv then pyStr ntv else "")))
        | _, _ => none
  | _ => some (.err invalidAnalysisMsg)

/-- The dictionary `analyze_collected_results` actually returns, fed by the
pipeline into `generate_summary` (key order as in the source). -/
def resultToVal : AnalyzeResult → Val
  | .err m => .vdict [("status", .vstr "error"), ("error_message", .vstr m)]
  | .ok k t n => .vdict
      [("status", .vstr "success"),
       ("keywords", .vlist (k.map .vstr)),
       ("topics", .vlist (t.map .vstr)),
       ("summary_notes", .vstr n)]

/-- Substring containment, `pat in s` on Python strings. -/
def strContains (s pat : String) : Prop := pat.data <:+: s.data

instance (s pat : String) : Decidable (strContains s pat) :=
  List.decidableInfix pat.data s.data

/-- The ranking order of `Counter.most_common`: `a` ranks strictly before
`b` when its count in the filtered token list is higher, or the counts are
equal and `a` occurs first earlier. -/
def rankBefore (fw : List String) (a b : String) : Prop :=
  fw.count b < fw.count a ∨ (fw.count a = fw.count b ∧ fw.indexOf a < fw.indexOf b)

instance (fw : List String) (a b : String) : Decidable (rankBefore fw a b) :=
  inferInstanceAs (Decidable (_ ∨ _))

/-- C1 counterexample.  The claim says the input "Web3 AI-driven" yields
the token set containing "web"; the code never produces "web" there: the
regex is bounded by word-boundary anchors, and the letter run "web" of
"web3" is followed by the word character "3", so no boundary exists and
"web3" contributes no token at all. -/
theorem C1_counterexample : "web" ∉ filteredWords ["Web3 AI-driven"] := by decide

/-- C1 (amended).  The tokenizer with its word-boundary anchors, the
length filter and the stopword filter sends "Web3 AI-driven" to exactly
the token list ["driven"]: "web3" contributes nothing (digits adjacent to
a letter run suppress the boundary match) and "ai" is dropped by the
length-greater-than-2 filter. -/
theorem C1_tokenization : filteredWords ["Web3 AI-driven"] = ["driven"] := by decide

/-- C2 counterexample.  The empty dictionary has every category list
missing, yet `analyze_collected_results` answers the `InvalidInput`
message (the empty dictionary is falsy in Python and is caught by the
`not inputs` guard), not the `NoContent` message the claim requires. -/
theorem C2_counterexample :
    analyze_collected_results (.vdict []) = some (.err invalidInputMsg) ∧
    invalidInputMsg ≠ noContentMsg :=
  ⟨rfl, by decide⟩

/-- C2 (amended).  Every non-empty dictionary in which each category list
(news, research, social) is missing or the empty list — and which does not
carry both keys of the comprehensive form — makes `analyze_collected_results`
return the error status with exactly the `NoContent` message naming both
possible causes. -/
theorem C2_noContent (d : List (String × Val))
    (hne : d ≠ [])
    (hnews : List.lookup "news" d = none ∨ List.lookup "news" d = some (.vlist []))
    (hres : List.lookup "research" d = none ∨ List.lookup "research" d = some (.vlist []))
    (hsoc : List.lookup "social" d = none ∨ List.lookup "social" d = some (.vlist []))
    (hcomp : hasKey d "news_analysis" = false ∨ hasKey d "social_media_analysis" = false) :
    analyze_collected_results (.vdict d) = some (.err noContentMsg) := by
  have h1 : lookupD d "news" (.vlist []) = .vlist [] := by
    rcases hnews with h | h <;> simp [lookupD, h]
  have h2 : lookupD d "research" (.vlist []) = .vlist [] := by
    rcases hres with h | h <;> simp [lookupD, h]
  have h3 : lookupD d "social" (.vlist []) = .vlist [] := by
    rcases hsoc with h | h <;> simp [lookupD, h]
  have hcat : categoryTexts d = [] := by
    unfold categoryTexts
    rw [h1, h2, h3]
    rfl
  have hext : extractAll d = some [] := by
    unfold extractAll
    rw [hcat]
    rcases hcomp with h | h <;> simp [h]
  simp [analyze_collected_results, List.isEmpty_eq_false.mpr hne, hext]

/-- C2 witness: a dictionary whose only category key holds the empty list. -/
theorem C2_noContent_witness :
    analyze_collected_results (.vdict [("news", .vlist [])]) = some (.err noContentMsg) :=
  C2_noContent [("news", .vlist [])] (by simp) (Or.inr rfl) (Or.inl rfl) (Or.inl rfl)
    (Or.inl rfl)

/-- C6 counterexample.  The empty dictionary has no `status` field equal
to "success", yet `generate_summary` answers the invalid-input message
(the falsy-dictionary guard fires first), which does not embed the
upstream error text as the claim requires. -/
theorem C6_counterexample :
    generate_summary (.vdict []) = some (.err invalidAnalysisMsg) ∧
    invalidAnalysisMsg ≠ "Analysis results indicate failure: Unknown error in analysis" :=
  ⟨rfl, by decide⟩

/-- C6 (amended).  For every non-empty dictionary whose `status` value is
not the string "success", `generate_summary` returns the error status with
the `UpstreamFailure` message embedding the upstream `error_message` text
(or its default), and never produces a summary. -/
theorem C6_upstream_failure (d : List (String × Val)) (hne : d ≠ [])
    (hst : isSuccessStatus (lookupD d "status" .vnone) = false) :
    generate_summary (.vdict d) =
      some (.err ("Analysis results indicate failure: " ++ upstreamErrText d)) ∧
    ∀ s, generate_summary (.vdict d) ≠ some (.ok s) := by
  have h1 : generate_summary (.vdict d) =
      some (.err ("Analysis results indicate failure: " ++ upstreamErrText d)) := by
    simp [generate_summary, List.isEmpty_eq_false.mpr hne, hst]
  refine ⟨h1, fun s hs => ?_⟩
  rw [h1] at hs
  simp at hs

/-- C6 witness: an error analysis result with an explicit message. -/
theorem C6_upstream_failure_witness :
    generate_summary (.vdict [("status", .vstr "error"), ("error_message", .vstr "boom")]) =
      some (.err "Analysis results indicate failure: boom") :=
  ((C6_upstream_failure [("status", .vstr "error"), ("error_message", .vstr "boom")]
    (by simp) rfl).1).trans rfl

/-- C7: in the comprehensive-analysis form, a nested block (news_analysis
with its articles, social_media_analysis with its posts) has its items'
`content` values extracted exactly when the block's `status` is "success";
a block whose status is anything else contributes zero text items; and the
extraction used by `analyze_collected_results` on the comprehensive branch
is exactly the news-block texts followed by the social-block texts. -/
theorem C7_comprehensive_gating (m : List (String × Val)) (field : String) :
    (isSuccessStatus (lookupD m "status" .vnone) = false →
      blockTexts (.vdict m) field = some []) ∧
    (∀ arts : List Val, isSuccessStatus (lookupD m "status" .vnone) = true →
      lookupD m field (.vlist []) = .vlist arts →
      blockTexts (.vdict m) field = some (arts.filterMap itemContent)) ∧
    (∀ d : List (String × Val), categoryTexts d = [] →
      hasKey d "news_analysis" = true → hasKey d "social_media_analysis" = true →
      extractAll d =
        (blockTexts (lookupD d "news_analysis" (.vdict [])) "articles").bind
          (fun nt => (blockTexts (lookupD d "social_media_analysis" (.vdict [])) "posts").map
            (fun st => nt ++ st))) := by
  refine ⟨fun h => ?_, fun arts h1 h2 => ?_, fun d hcat hn hs => ?_⟩
  · simp [blockTexts, h]
  · simp [blockTexts, h1, h2, pyIter]
  · unfold extractAll
    rw [hcat, hn, hs]
    simp only [List.isEmpty_nil, Bool.not_true, Bool.and_self, if_false, if_true]
    rcases blockTexts (lookupD d "news_analysis" (.vdict [])) "articles" with _ | nt
    · rfl
    · rcases blockTexts (lookupD d "social_media_analysis" (.vdict [])) "posts" with _ | st <;> rfl

/-- C7 witness: an error-status block contributes nothing; a success-status
block contributes its article contents. -/
theorem C7_comprehensive_gating_witness :
    blockTexts (.vdict [("status", .vstr "error"),
      ("articles", .vlist [.vdict [("content", .vstr "x")]])]) "articles" = some [] ∧
    blockTexts (.vdict [("status", .vstr "success"),
      ("articles", .vlist [.vdict [("content", .vstr "x")]])]) "articles" = some [.vstr "x"] :=
  ⟨(C7_comprehensive_gating [("status", .vstr "error"),
      ("articles", .vlist [.vdict [("content", .vstr "x")]])] "articles").1 rfl,
   ((C7_comprehensive_gating [("status", .vstr "success"),
      ("articles", .vlist [.vdict [("content", .vstr "x")]])] "articles").2.1
      [.vdict [("content", .vstr "x")]] rfl rfl).trans rfl⟩

/-- Joining a non-empty clause list with one more clause appended places
the separator and that clause at the very end of the joined string. -/
theorem pyJoin_append_single (sep x : String) (l : List String) (h : l ≠ []) :
    pyJoin sep (l ++ [x]) = pyJoin sep l ++ (sep ++ x) := by
  induction l with
  | nil => exact absurd rfl h
  | cons a t ih =>
    cases t with
    | nil => simp [pyJoin, String.append_assoc]
    | cons b t2 =>
      have h2 : pyJoin sep (b :: (t2 ++ [x])) = pyJoin sep (b :: t2) ++ (sep ++ x) :=
        ih (by simp)
      show a ++ sep ++ pyJoin sep (b :: (t2 ++ [x])) =
        (a ++ sep ++ pyJoin sep (b :: t2)) ++ (sep ++ x)
      rw [h2, ← String.append_assoc]

/-- A joined clause list starts with its first clause. -/
theorem pyJoin_cons (sep x : String) (xs : List String) :
    ∃ u, pyJoin sep (x :: xs) = x ++ u := by
  cases xs with
  | nil => exact ⟨"", by simp [pyJoin]⟩
  | cons y ys => exact ⟨sep ++ pyJoin sep (y :: ys), by simp [pyJoin, String.append_assoc]⟩

/-- All three branches of the opening clause start with the literal
"Executive Summary:". -/
theorem opening_starts (tps : List String) :
    ∃ t, openingClause tps = "Executive Summary:" ++ t := by
  unfold openingClause
  split
  · split
    · refine ⟨" Analysis reveals a primary focus on " ++ lowerStr (tps.getD 0 "") ++ ".", ?_⟩
      rw [show ("Executive Summary: Analysis reveals a primary focus on " : String) =
        "Executive Summary:" ++ " Analysis reveals a primary focus on " from rfl]
      simp only [String.append_assoc]
    · refine ⟨" Analysis reveals key themes across " ++ (toString tps.length ++
        (" major areas: " ++ (lowerStr (pyJoin ", " tps) ++ "."))), ?_⟩
      rw [show ("Executive Summary: Analysis reveals key themes across " : String) =
        "Executive Summary:" ++ " Analysis reveals key themes across " from rfl]
      simp only [String.append_assoc]
  · exact ⟨" Analysis of collected data reveals diverse content patterns.", rfl⟩

/-- The assembled summary starts with the opening clause and hence with
"Executive Summary:". -/
theorem core_starts (kws tps : List String) (notes : String) :
    ∃ t, generateSummaryCore kws tps notes = "Executive Summary:" ++ t := by
  obtain ⟨u, hu⟩ := pyJoin_cons " " (openingClause tps)
    ((findingsClauses kws ++ insightClauses tps ++ implicationClauses kws tps ++
      [conclusionClause notes]) ++ recommendationClauses kws)
  obtain ⟨t0, h0⟩ := opening_starts tps
  refine ⟨t0 ++ u, ?_⟩
  unfold generateSummaryCore summaryParts preParts
  rw [List.cons_append, hu, h0, String.append_assoc]

/-- C9: every summary produced with status success begins with the literal
prefix "Executive Summary:" (all three opening-clause branches emit it as
the first clause), and the summary is exactly the clause groups joined in
fixed order with single spaces. -/
theorem C9_executive_prefix (v : Val) (s : String)
    (h : generate_summary v = some (.ok s)) :
    (∃ kws tps notes, s = pyJoin " " (summaryParts kws tps notes)) ∧
    ∃ t, s = "Executive Summary:" ++ t := by
  cases v with
  | vdict d =>
    simp only [generate_summary] at h
    split at h
    · simp at h
    · split at h
      · simp at h
      · split at h
        · simp at h
        · split at h
          · rename_i kws tps hk ht
            have hs : s = generateSummaryCore kws tps
                (if truthy (lookupD d "summary_notes" (Val.vstr "")) = true then
                  pyStr (lookupD d "summary_notes" (Val.vstr "")) else "") := by
              have h2 := Option.some.inj h
              exact (SumResult.ok.inj h2).symm
            subst hs
            exact ⟨⟨kws, tps, _, rfl⟩, core_starts _ _ _⟩
          · simp at h
  | vstr s2 => simp [generate_summary] at h
  | vint n => simp [generate_summary] at h
  | vlist l => simp [generate_summary] at h
  | vnone => simp [generate_summary] at h

/-- C9 witness: a concrete successful call. -/
theorem C9_executive_prefix_witness :
    (∃ kws tps notes, generateSummaryCore ["abc"] [] "" = pyJoin " " (summaryParts kws tps notes)) ∧
    ∃ t, generateSummaryCore ["abc"] [] "" = "Executive Summary:" ++ t :=
  C9_executive_prefix
    (.vdict [("status", .vstr "success"), ("keywords", .vlist [.vstr "abc"])])
    (generateSummaryCore ["abc"] [] "") rfl

/-- C8: the summary ends with the recommendation clause naming the first
two keywords exactly when at least 3 keywords exist; with fewer keywords
the summary is exactly the join of the other clause groups, with no
recommendation clause emitted. -/
theorem C8_recommendation (kws tps : List String) (notes : String) :
    (3 ≤ kws.length →
      generateSummaryCore kws tps notes =
        pyJoin " " (preParts kws tps notes) ++ (" " ++ recClause kws)) ∧
    (kws.length < 3 →
      generateSummaryCore kws tps notes = pyJoin " " (preParts kws tps notes)) := by
  constructor
  · intro h
    unfold generateSummaryCore summaryParts recommendationClauses
    rw [if_pos h]
    rw [pyJoin_append_single " " (recClause kws) (preParts kws tps notes) (by simp [preParts])]
  · intro h
    unfold generateSummaryCore summaryParts recommendationClauses
    rw [if_neg (by omega)]
    simp

/-- C8 witness: three keywords trigger the recommendation, one keyword
does not. -/
theorem C8_recommendation_witness :
    generateSummaryCore ["a", "b", "c"] [] "" =
      pyJoin " " (preParts ["a", "b", "c"] [] "") ++ (" " ++ recClause ["a", "b", "c"]) ∧
    generateSummaryCore ["a"] [] "" = pyJoin " " (preParts ["a"] [] "") :=
  ⟨(C8_recommendation ["a", "b", "c"] [] "").1 (by decide),
   (C8_recommendation ["a"] [] "").2 (by decide)⟩

/-- C10: any accepted input whose text filters down to no tokens (only
stopwords and tokens of length at most 2) succeeds with empty keywords,
empty topics and the diverse-content note, and feeding that successful
result to `generate_summary` yields the `NoSignal` error. -/
theorem C10_no_signal (d : List (String × Val)) (vs : List Val) (texts : List String)
    (hne : d ≠ []) (hvs : extractAll d = some vs) (hstr : strList vs = some texts)
    (hts : texts ≠ []) (hfw : filteredWords texts = []) :
    analyze_collected_results (.vdict d) =
      some (.ok [] [] ("Analysis of " ++ toString texts.length ++
        " items shows diverse content without clear dominant themes.")) ∧
    generate_summary (resultToVal (analyzeCore texts)) = some (.err noSignalMsg) := by
  have hcore : analyzeCore texts = .ok [] []
      ("Analysis of " ++ toString texts.length ++
        " items shows diverse content without clear dominant themes.") := by
    simp only [analyzeCore, hfw]
    rfl
  have hvs_ne : vs ≠ [] := by
    intro hnil
    subst hnil
    simp [strList] at hstr
    exact hts hstr
  constructor
  · simp [analyze_collected_results, List.isEmpty_eq_false.mpr hne, hvs,
      List.isEmpty_eq_false.mpr hvs_ne, hstr, hcore]
  · rw [hcore]
    rfl

/-- C10 witness: one news record whose content is all stopwords. -/
theorem C10_no_signal_witness :
    analyze_collected_results (.vdict [("news", .vlist [.vdict
        [("source", .vstr "NewsAPI"), ("content", .vstr "the and for")]])]) =
      some (.ok [] [] ("Analysis of " ++ toString (["the and for"] : List String).length ++
        " items shows diverse content without clear dominant themes.")) ∧
    generate_summary (resultToVal (analyzeCore ["the and for"])) = some (.err noSignalMsg) :=
  C10_no_signal [("news", .vlist [.vdict [("source", .vstr "NewsAPI"),
      ("content", .vstr "the and for")]])] [.vstr "the and for"] ["the and for"]
    (by simp) rfl rfl (by simp) (by decide)

set_option maxRecDepth 8192

/-- C3: on the single fintech news record, the analysis succeeds with
keywords led by "fintech" (which occurs twice in the filtered tokens) and
topics containing both Finance & Investment and Technology & Innovation;
the summarization of that result succeeds with a summary containing
"Executive Summary" and naming at least one matched topic. -/
theorem C3_end_to_end :
    ∃ kws tps notes summary,
      analyze_collected_results (.vdict [("news", .vlist [.vdict
          [("source", .vstr "NewsAPI"),
           ("content", .vstr "fintech innovation digital payments fintech")]])]) =
        some (.ok kws tps notes) ∧
      kws.head? = some "fintech" ∧
      (filteredWords ["fintech innovation digital payments fintech"]).count "fintech" = 2 ∧
      "Finance & Investment" ∈ tps ∧
      "Technology & Innovation" ∈ tps ∧
      generate_summary (resultToVal (.ok kws tps notes)) = some (.ok summary) ∧
      strContains summary "Executive Summary" ∧
      ∃ t ∈ tps, strContains summary t := by
  refine ⟨["fintech", "innovation", "digital", "payments"],
    ["Technology & Innovation", "Finance & Investment"],
    "Analysis of 1 items reveals dominant themes in Technology & Innovation, Finance & Investment. Key recurring terms include fintech, innovation, digital, payments.",
    "Executive Summary: Analysis reveals key themes across 2 major areas: technology & innovation, finance & investment. Key findings center around fintech, innovation, and digital, indicating strong market interest and activity in these areas. The analysis indicates significant technological advancement and innovation activity, and active financial markets and investment opportunities. Strategic implications suggest opportunities in financial technology and digital payment solutions, potential for technology-driven transformation and automation. Overall assessment: Analysis of 1 items reveals dominant themes in Technology & Innovation, Finance & Investment. Key recurring terms include fintech, innovation, digital, payments. Recommendation: Continue monitoring developments in fintech and innovation for emerging opportunities and competitive intelligence.",
    rfl, rfl, by decide, by decide, by decide, rfl, by decide,
    "Technology & Innovation", by decide, by decide⟩

/-- In a table whose first components are distinct, two entries with the
same first component are the same entry. -/
theorem pairFstUniq {β : Type} {l : List (String × β)}
    (h : (l.map Prod.fst).Nodup) {q r : String × β}
    (hq : q ∈ l) (hr : r ∈ l) (hf : q.1 = r.1) : q = r := by
  induction l with
  | nil => cases hq
  | cons a t ih =>
    rw [List.map_cons, List.nodup_cons] at h
    rcases List.mem_cons.mp hq with rfl | hq2
    · rcases List.mem_cons.mp hr with rfl | hr2
      · rfl
      · exact absurd (hf ▸ List.mem_map_of_mem Prod.fst hr2) h.1
    · rcases List.mem_cons.mp hr with rfl | hr2
      · exact absurd (hf ▸ List.mem_map_of_mem Prod.fst hq2) h.1
      · exact ih h.2 hq2 hr2

/-- A theme name is listed by the classifier exactly when one of its
keywords occurs among the filtered tokens. -/
theorem topicsOf_mem_iff (fw : List String) (name : String) (kws : List String)
    (h : (name, kws) ∈ themePatterns) :
    name ∈ topicsOf fw ↔ ∃ kw ∈ kws, kw ∈ fw := by
  have hnd : (themePatterns.map Prod.fst).Nodup := by decide
  constructor
  · intro hm
    unfold topicsOf at hm
    rcases List.mem_map.mp hm with ⟨p, hp, hpeq⟩
    have hpt : p ∈ themePatterns := (List.mem_filter.mp hp).1
    have hscore := (List.mem_filter.mp hp).2
    have hpe : p = (name, kws) := pairFstUniq hnd hpt h (by rw [hpeq])
    subst hpe
    have h2 : 0 < themeScore fw kws := of_decide_eq_true hscore
    unfold themeScore at h2
    rw [← List.countP_eq_length_filter] at h2
    rcases List.countP_pos_iff.mp h2 with ⟨kw, hkw, hc⟩
    exact ⟨kw, hkw, by simpa using hc⟩
  · rintro ⟨kw, hkw, hmem⟩
    unfold topicsOf
    apply List.mem_map.mpr
    refine ⟨(name, kws), List.mem_filter.mpr ⟨h, ?_⟩, rfl⟩
    apply decide_eq_true
    show 0 < themeScore fw kws
    unfold themeScore
    rw [← List.countP_eq_length_filter]
    exact List.countP_pos_iff.mpr ⟨kw, hkw, by simpa using hmem⟩

/-- C5: a theme appears in the topics output exactly when one of its fixed
keywords occurs among the filtered tokens; the topics list is a sublist of
the theme names in their fixed declaration order (never re-sorted by hit
count); and when no theme keyword occurs at all the topics list is empty
while the status is still success. -/
theorem C5_topic_classification (texts : List String) :
    (∀ name kws, (name, kws) ∈ themePatterns →
      (name ∈ (analyzeCore texts).topics ↔ ∃ kw ∈ kws, kw ∈ filteredWords texts)) ∧
    List.Sublist (analyzeCore texts).topics (themePatterns.map Prod.fst) ∧
    ((∀ name kws, (name, kws) ∈ themePatterns → ∀ kw ∈ kws, kw ∉ filteredWords texts) →
      (analyzeCore texts).topics = [] ∧ (analyzeCore texts).status = "success") := by
  have htop : (analyzeCore texts).topics = topicsOf (filteredWords texts) := rfl
  refine ⟨fun name kws h => ?_, ?_, fun hnone => ⟨?_, rfl⟩⟩
  · rw [htop]
    exact topicsOf_mem_iff (filteredWords texts) name kws h
  · rw [htop]
    exact List.Sublist.map Prod.fst (List.filter_sublist themePatterns)
  · rw [htop]
    unfold topicsOf
    rw [show (themePatterns.filter
        (fun p => decide (0 < themeScore (filteredWords texts) p.2))) = [] from ?_]
    · rfl
    · rw [List.filter_eq_nil_iff]
      intro p hp
      simp only [decide_eq_true_eq, Nat.not_lt, Nat.le_zero]
      unfold themeScore
      rw [← List.countP_eq_length_filter]
      rw [List.countP_eq_zero]
      intro kw hkw
      have := hnone p.1 p.2 hp kw hkw
      simpa using this

/-- C5 witness: a token list hitting one theme keyword, and a token list
hitting none. -/
theorem C5_topic_classification_witness :
    ("Technology & Innovation" ∈ (analyzeCore ["digital stuff"]).topics ↔
      ∃ kw ∈ ["technology", "innovation", "tech", "ai", "artificial", "intelligence",
        "machine", "learning", "digital", "algorithm"], kw ∈ filteredWords ["digital stuff"]) ∧
    ((analyzeCore ["zzz zebra"]).topics = [] ∧ (analyzeCore ["zzz zebra"]).status = "success") :=
  ⟨(C5_topic_classification ["digital stuff"]).1 "Technology & Innovation"
      ["technology", "innovation", "tech", "ai", "artificial", "intelligence",
       "machine", "learning", "digital", "algorithm"] (by decide),
   (C5_topic_classification ["zzz zebra"]).2.2 (fun name kws h kw hkw =>
     (by decide : ∀ p ∈ themePatterns, ∀ kw ∈ p.2, kw ∉ filteredWords ["zzz zebra"])
       (name, kws) h kw hkw)⟩

/-- Membership in the first-occurrence deduplication: exactly the elements
of the list not already seen. -/
theorem dedupF_mem (a : String) : ∀ (l seen : List String),
    a ∈ dedupF seen l ↔ a ∈ l ∧ seen.contains a = false := by
  intro l
  induction l with
  | nil => intro seen; simp [dedupF]
  | cons x xs ih =>
    intro seen
    have hstep : dedupF seen (x :: xs) =
        if seen.contains x = true then dedupF seen xs else x :: dedupF (x :: seen) xs := rfl
    by_cases hx : seen.contains x = true
    · rw [hstep, if_pos hx, ih seen, List.mem_cons]
      constructor
      · rintro ⟨h1, h2⟩
        exact ⟨Or.inr h1, h2⟩
      · rintro ⟨h1, h2⟩
        rcases h1 with rfl | h1
        · rw [hx] at h2
          cases h2
        · exact ⟨h1, h2⟩
    · have hx0 : seen.contains x = false := Bool.eq_false_iff.mpr hx
      rw [hstep, if_neg hx, List.mem_cons, List.mem_cons, ih (x :: seen)]
      constructor
      · rintro (rfl | ⟨h1, h2⟩)
        · exact ⟨Or.inl rfl, hx0⟩
        · rw [List.contains_cons, Bool.or_eq_false_iff] at h2
          exact ⟨Or.inr h1, h2.2⟩
      · rintro ⟨h1, h2⟩
        by_cases hax : a = x
        · exact Or.inl hax
        · rcases h1 with rfl | h1
          · exact Or.inl rfl
          · refine Or.inr ⟨h1, ?_⟩
            rw [List.contains_cons, Bool.or_eq_false_iff]
            exact ⟨beq_eq_false_iff_ne.mpr hax, h2⟩

/-- Running the deduplication with a non-empty seen set filters the
seen elements out of the fresh deduplication. -/
theorem dedupF_filter : ∀ (l seen : List String),
    dedupF seen l = (dedupF [] l).filter (fun a => !(seen.contains a)) := by
  intro l
  induction l with
  | nil => intro seen; simp [dedupF]
  | cons x xs ih =>
    intro seen
    have hstep : ∀ s : List String, dedupF s (x :: xs) =
        if s.contains x = true then dedupF s xs else x :: dedupF (x :: s) xs := fun s => rfl
    have hnil : dedupF [] (x :: xs) = x :: dedupF [x] xs := rfl
    rw [hnil]
    by_cases hx : seen.contains x = true
    · rw [hstep seen, if_pos hx, List.filter_cons, if_neg (by rw [hx]; decide)]
      rw [ih seen, ih [x], List.filter_filter]
      apply List.filter_congr
      intro a _
      show (!seen.contains a) = (!seen.contains a && !([x].contains a))
      rw [List.contains_cons]
      cases h1 : (a == x) with
      | true =>
        cases h2 : seen.contains a with
        | true => rfl
        | false =>
          rw [eq_of_beq h1] at h2
          rw [h2] at hx
          cases hx
      | false =>
        cases h2 : seen.contains a with
        | true => rfl
        | false => rfl
    · have hx0 : seen.contains x = false := Bool.eq_false_iff.mpr hx
      rw [hstep seen, if_neg hx, List.filter_cons, if_pos (by rw [hx0]; rfl)]
      congr 1
      rw [ih (x :: seen), ih [x], List.filter_filter]
      apply List.filter_congr
      intro a _
      show (!((x :: seen).contains a)) = (!seen.contains a && !([x].contains a))
      rw [List.contains_cons, List.contains_cons]
      cases h1 : (a == x) <;> cases h2 : seen.contains a <;> rfl

/-- The fresh first-occurrence deduplication lists elements in strictly
increasing order of their first occurrence in the underlying list. -/
theorem dedupF_idx_pairwise : ∀ (l : List String),
    List.Pairwise (fun a b => l.indexOf a < l.indexOf b) (dedupF [] l) := by
  intro l
  induction l with
  | nil => simp [dedupF]
  | cons x xs ih =>
    have hnil : dedupF [] (x :: xs) = x :: dedupF [x] xs := rfl
    rw [hnil]
    constructor
    · intro b hb
      have hmem := (dedupF_mem b xs [x]).mp hb
      have hbx : b ≠ x := by
        intro he
        subst he
        simp at hmem
      rw [List.indexOf_cons_self, List.indexOf_cons_ne _ (fun he => hbx he.symm)]
      exact Nat.succ_pos _
    · rw [dedupF_filter xs [x]]
      refine List.Pairwise.imp_of_mem ?_
        (List.Pairwise.sublist (List.filter_sublist (dedupF [] xs)) ih)
      intro a b ha hb hr
      have hax : a ≠ x := by
        have h2 := (List.mem_filter.mp ha).2
        simp at h2
        exact h2
      have hbx : b ≠ x := by
        have h2 := (List.mem_filter.mp hb).2
        simp at h2
        exact h2
      rw [List.indexOf_cons_ne _ (fun he => hax he.symm),
        List.indexOf_cons_ne _ (fun he => hbx he.symm)]
      omega

/-- Inserting into the descending-sorted accumulator permutes consing. -/
theorem insertD_perm (c : String → Nat) (x : String) : ∀ (l : List String),
    List.Perm (insertD c x l) (x :: l) := by
  intro l
  induction l with
  | nil => simp [insertD]
  | cons y ys ih =>
    simp only [insertD]
    by_cases hc : c y < c x
    · rw [if_pos hc]
    · rw [if_neg hc]
      exact (ih.cons y).trans (List.Perm.swap x y ys)

/-- Folding stable insertion over a list permutes appending it. -/
theorem foldl_insertD_perm (c : String → Nat) : ∀ (l acc : List String),
    List.Perm (List.foldl (fun a x => insertD c x a) acc l) (acc ++ l) := by
  intro l
  induction l with
  | nil => intro acc; simp
  | cons x xs ih =>
    intro acc
    simp only [List.foldl_cons]
    exact ((ih _).trans (List.Perm.append_right xs (insertD_perm c x acc))).trans
      List.perm_middle.symm

/-- The stable descending sort is a permutation of its input. -/
theorem sortDesc_perm (c : String → Nat) (l : List String) :
    List.Perm (sortDesc c l) l := by
  simpa [sortDesc] using foldl_insertD_perm c l []

/-- The ranking order implies a count bound. -/
theorem rankBefore_count_le {fw : List String} {a b : String}
    (h : rankBefore fw a b) : fw.count b ≤ fw.count a := by
  rcases h with h | ⟨h, _⟩
  · omega
  · omega

/-- Stable insertion preserves the ranking order provided the inserted
element occurs first later than every element of equal count already in
the accumulator. -/
theorem insertD_pairwise (fw : List String) (x : String) : ∀ (l : List String),
    List.Pairwise (rankBefore fw) l →
    (∀ y ∈ l, fw.count y = fw.count x → fw.indexOf y < fw.indexOf x) →
    List.Pairwise (rankBefore fw) (insertD (fun w => fw.count w) x l) := by
  intro l
  induction l with
  | nil => intro _ _; simp [insertD]
  | cons y ys ih =>
    intro hl htie
    simp only [insertD]
    by_cases hc : fw.count y < fw.count x
    · rw [if_pos hc]
      constructor
      · intro b hb
        rcases List.mem_cons.mp hb with rfl | hb2
        · exact Or.inl hc
        · have h1 := (List.pairwise_cons.mp hl).1 b hb2
          exact Or.inl (Nat.lt_of_le_of_lt (rankBefore_count_le h1) hc)
      · exact hl
    · rw [if_neg hc]
      have hl' := List.pairwise_cons.mp hl
      constructor
      · intro b hb
        rcases List.mem_cons.mp
            ((insertD_perm (fun w => fw.count w) x ys).mem_iff.mp hb) with rfl | hb2
        · rcases Nat.lt_or_ge (fw.count b) (fw.count y) with hlt | hge
          · exact Or.inl hlt
          · have heq : fw.count y = fw.count b := Nat.le_antisymm hge (Nat.not_lt.mp hc)
            exact Or.inr ⟨heq, htie y (List.mem_cons_self y ys) heq⟩
        · exact hl'.1 b hb2
      · exact ih hl'.2 (fun y2 hy2 hcy2 => htie y2 (List.mem_cons_of_mem y hy2) hcy2)

/-- Folding stable insertion over a list of tokens listed in increasing
first-occurrence order yields a list ordered by the ranking order. -/
theorem foldl_insertD_pairwise (fw : List String) : ∀ (l acc : List String),
    List.Pairwise (rankBefore fw) acc →
    List.Pairwise (fun a b => fw.indexOf a < fw.indexOf b) l →
    (∀ y ∈ acc, ∀ z ∈ l, fw.indexOf y < fw.indexOf z) →
    List.Pairwise (rankBefore fw)
      (List.foldl (fun a x => insertD (fun w => fw.count w) x a) acc l) := by
  intro l
  induction l with
  | nil => intro acc hacc _ _; simpa using hacc
  | cons x xs ih =>
    intro acc hacc hidx hcross
    simp only [List.foldl_cons]
    apply ih
    · apply insertD_pairwise fw x acc hacc
      intro y hy _
      exact hcross y hy x (List.mem_cons_self x xs)
    · exact (List.pairwise_cons.mp hidx).2
    · intro y hy z hz
      rcases List.mem_cons.mp
          ((insertD_perm (fun w => fw.count w) x acc).mem_iff.mp hy) with rfl | hy2
      · exact (List.pairwise_cons.mp hidx).1 z hz
      · exact hcross y hy2 z (List.mem_cons_of_mem x hz)

/-- The stable descending sort of the deduplicated token list is ordered
by the ranking order (count descending, first occurrence breaking ties). -/
theorem sortDesc_pairwise (fw : List String) :
    List.Pairwise (rankBefore fw)
      (sortDesc (fun w => fw.count w) (dedupF [] fw)) := by
  unfold sortDesc
  apply foldl_insertD_pairwise fw (dedupF [] fw) []
  · exact List.Pairwise.nil
  · exact dedupF_idx_pairwise fw
  · intro y hy
    cases hy

/-- C4: the keyword list of the analysis is, deterministically, the
at-most-10 distinct filtered tokens of highest occurrence count, listed in
descending count order with ties broken by first occurrence: it has no
duplicates, draws from the filtered tokens, holds at most 10 entries
ordered by `rankBefore`, and any filtered token left out means the list is
full with every listed token ranking strictly before the excluded one. -/
theorem C4_keyword_ranking (texts : List String) :
    ((analyzeCore texts).keywords).Nodup ∧
    (∀ w ∈ (analyzeCore texts).keywords, w ∈ filteredWords texts) ∧
    (analyzeCore texts).keywords.length ≤ 10 ∧
    List.Pairwise (rankBefore (filteredWords texts)) (analyzeCore texts).keywords ∧
    (∀ w ∈ filteredWords texts, w ∉ (analyzeCore texts).keywords →
      (analyzeCore texts).keywords.length = 10 ∧
      ∀ v ∈ (analyzeCore texts).keywords, rankBefore (filteredWords texts) v w) := by
  have hk : (analyzeCore texts).keywords =
      (sortDesc (fun w => (filteredWords texts).count w)
        (dedupF [] (filteredWords texts))).take 10 := rfl
  have hsorted := sortDesc_pairwise (filteredWords texts)
  have hperm := sortDesc_perm (fun w => (filteredWords texts).count w)
    (dedupF [] (filteredWords texts))
  have hpw_ks : List.Pairwise (rankBefore (filteredWords texts))
      (analyzeCore texts).keywords := by
    rw [hk]
    exact hsorted.take
  have hmem_ks : ∀ w ∈ (analyzeCore texts).keywords, w ∈ filteredWords texts := by
    intro w hw
    rw [hk] at hw
    have h1 := List.take_subset 10 _ hw
    have h2 := hperm.mem_iff.mp h1
    exact ((dedupF_mem w (filteredWords texts) []).mp h2).1
  refine ⟨?_, hmem_ks, ?_, hpw_ks, ?_⟩
  · refine List.Pairwise.imp ?_ hpw_ks
    intro a b h he
    subst he
    rcases h with h | ⟨h1, h2⟩
    · exact Nat.lt_irrefl _ h
    · exact Nat.lt_irrefl _ h2
  · rw [hk, List.length_take]
    omega
  · intro w hwfw hwks
    have hwU : w ∈ dedupF [] (filteredWords texts) :=
      (dedupF_mem w (filteredWords texts) []).mpr ⟨hwfw, rfl⟩
    have hwS := hperm.mem_iff.mpr hwU
    have hsplit := List.take_append_drop 10
      (sortDesc (fun w => (filteredWords texts).count w)
        (dedupF [] (filteredWords texts)))
    have hwdrop : w ∈ (sortDesc (fun w => (filteredWords texts).count w)
        (dedupF [] (filteredWords texts))).drop 10 := by
      rcases List.mem_append.mp (by rw [hsplit]; exact hwS) with h | h
      · rw [← hk] at h
        exact absurd h hwks
      · exact h
    have hlen10 : 10 < (sortDesc (fun w => (filteredWords texts).count w)
        (dedupF [] (filteredWords texts))).length := by
      by_contra hcon
      rw [List.drop_eq_nil_of_le (by omega)] at hwdrop
      cases hwdrop
    constructor
    · rw [hk, List.length_take]
      omega
    · intro v hv
      have hps : List.Pairwise (rankBefore (filteredWords texts))
          ((sortDesc (fun w => (filteredWords texts).count w)
            (dedupF [] (filteredWords texts))).take 10 ++
           (sortDesc (fun w => (filteredWords texts).count w)
            (dedupF [] (filteredWords texts))).drop 10) := by
        rw [hsplit]
        exact hsorted
      have hcross := (List.pairwise_append.mp hps).2.2
      rw [hk] at hv
      exact hcross v hv w hwdrop

/-- C4 witness: eleven distinct tokens of equal count; the first is kept
and listed among the filtered tokens, the eleventh is excluded with the
kept list full and every kept token ranking before it. -/
theorem C4_keyword_ranking_witness :
    "aaa" ∈ filteredWords ["aaa bbb ccc ddd eee fff ggg hhh iii jjj kkk"] ∧
    ((analyzeCore ["aaa bbb ccc ddd eee fff ggg hhh iii jjj kkk"]).keywords.length = 10 ∧
      ∀ v ∈ (analyzeCore ["aaa bbb ccc ddd eee fff ggg hhh iii jjj kkk"]).keywords,
        rankBefore (filteredWords ["aaa bbb ccc ddd eee fff ggg hhh iii jjj kkk"]) v "kkk") :=
  ⟨(C4_keyword_ranking ["aaa bbb ccc ddd eee fff ggg hhh iii jjj kkk"]).2.1 "aaa" (by decide),
   (C4_keyword_ranking ["aaa bbb ccc ddd eee fff ggg hhh iii jjj kkk"]).2.2.2.2 "kkk"
     (by decide) (by decide)⟩
